import Mathlib

/-!
Shallow embedding of `internal/service/meta_service.go` from dingodb/dingospeed.

The Go service orchestrates a cache-and-proxy flow for model-hub metadata.
External collaborators (commit resolver, origin HTTP client, config flags,
JSON decoding, header extraction) are modelled as oracles in an `Env` record;
the on-disk cache is an explicit association list `Fs` from paths to optional
cache contents (`some c` = file present and readable with content `c`,
`none` value = file present but unreadable/corrupt, key absent = file absent).
Side effects towards the HTTP client and the origin are recorded as an
`Event` trace.
-/

/-- Bytes of a response or cache body, modelled as a list of byte values. -/
abbrev Bytes := List Nat

/-- Mirror of `common.CacheContent`: status code, extracted headers, body. -/
structure CacheContent where
  statusCode : Nat
  headers : List (String × String)
  originContent : Bytes
deriving Repr, DecidableEq

/-- Response of the origin client (`fileDao.RemoteRequestMeta` /
`metaDao.RepoRefs` success value): status code, raw headers, body. -/
structure RemoteResp where
  statusCode : Nat
  headers : List (String × String)
  body : Bytes
deriving Repr, DecidableEq

/-- Errors from `fileDao.GetFileCommitSha`: either a structured `myerr.Error`
carrying a status code (the Go type assertion `err.(myerr.Error)` succeeds),
or any other error. -/
inductive ResolveErr
  | structured (statusCode : Nat) (msg : String)
  | other
deriving Repr, DecidableEq

/-- Mirror of `common.PathsInfo` as used by `analysisFile`: repo-relative
path and a size. -/
structure PathsInfo where
  path : String
  size : Int
deriving Repr, DecidableEq

/-- Mirror of the Go `FileDescribe` struct (name, size, isDir, link);
Go zero values are `0`, `false`, `""`. -/
structure FileDescribe where
  name : String
  size : Int
  isDir : Bool
  link : String
deriving Repr, DecidableEq

/-- The on-disk cache: an association list from paths to `Option CacheContent`.
The head of the list shadows later entries (latest write wins). A key bound to
`none` models a file that exists but whose `ReadCacheRequest` fails. -/
abbrev Fs := List (String × Option CacheContent)

/-- Mirror of `util.FileExists`: the path is present in the store. -/
def fsFileExists (fs : Fs) (p : String) : Bool :=
  (fs.lookup p).isSome

/-- Mirror of `fileDao.ReadCacheRequest`: `some c` on successful read,
`none` when the file is absent or the read fails. -/
def fsRead (fs : Fs) (p : String) : Option CacheContent :=
  (fs.lookup p).join

/-- Effect of a successful `fileDao.WriteCacheRequest` on the store. -/
def fsWrite (fs : Fs) (p : String) (c : CacheContent) : Fs :=
  (p, some c) :: fs

/-- Observable events: origin fetches and response emissions. -/
inductive Event
  | fetchMeta (method repoType orgRepo commit auth : String)
  | fetchRefs (repoType orgRepo auth : String)
  | emitHeaders (status : Nat) (headers : List (String × String))
  | emitBody (body : Bytes)
  | emitStream (cc : CacheContent) (chunks : List Bytes)
deriving Repr, DecidableEq

/-- Result of an echo handler: `ok` for a normal (nil-error) return, the
others mirror the `util.Error*` helpers the Go code returns. -/
inductive Outcome
  | ok
  | entryUnknown (status : Nat) (msg : String)
  | entryNotFound
  | proxyError
  | pageNotFound
  | repoNotFound
deriving Repr, DecidableEq

/-- Oracles for the external collaborators and process configuration. -/
structure Env where
  /-- `config.SysConfig.Online()` -/
  online : Bool
  /-- `config.SysConfig.Repos()` -/
  repos : String
  /-- `config.SysConfig.Scheduler.PublicDomain` -/
  publicDomain : String
  /-- `fileDao.GetFileCommitSha c repoType orgRepo commit` -/
  getFileCommitSha : String → String → String → Except ResolveErr String
  /-- `fileDao.RemoteRequestMeta method repoType orgRepo commit auth`;
  `none` models a transport failure. -/
  remoteRequestMeta : String → String → String → String → String → Option RemoteResp
  /-- `metaDao.RepoRefs repoType orgRepo auth`; `none` models failure. -/
  repoRefsRemote : String → String → String → Option RemoteResp
  /-- `resp.ExtractHeaders resp.Headers` -/
  extractHeaders : List (String × String) → List (String × String)
  /-- `util.MakeDirs path` succeeds -/
  makeDirs : String → Bool
  /-- `fileDao.WriteCacheRequest` at this path succeeds -/
  writeOk : String → Bool
  /-- `io.Copy` of this body to the response succeeds -/
  copyOk : Bytes → Bool
  /-- membership in `consts.RepoTypesMapping` -/
  validRepoType : String → Bool
  /-- `sonic.Unmarshal` of cached bytes into `[]common.PathsInfo`;
  `none` models a parse failure. -/
  parsePathsInfo : Bytes → Option (List PathsInfo)
  /-- `util.ReadDir dirPath`; `none` models failure. -/
  readDir : String → Option (List String)

/-- Modelled from the spec: the request-method constant distinguishing HEAD
requests (`consts.RequestTypeHead`, external to the shown source; the spec
writes it as `method=HEAD`). Only its identity matters to the code, which
compares `method == consts.RequestTypeHead`. -/
def RequestTypeHead : String := "HEAD"

/-- Message carried by the `util.ErrorEntryUnknown` response on a
non-(200, 307) origin status in `requestAndSaveMeta`. -/
def requestErrMsg : String := "request err"

/-- Cache path `{repos}/api/{repoType}/{orgRepo}/revision/{rev}/meta_{method}.json`,
mirroring the two `fmt.Sprintf` calls building `apiDir` and `apiMetaPath`. -/
def apiMetaPathOf (repos repoType orgRepo rev method : String) : String :=
  repos ++ "/api/" ++ repoType ++ "/" ++ orgRepo ++ "/revision/" ++ rev
    ++ "/meta_" ++ method ++ ".json"

/-- Cache path `{repos}/api/{repoType}/{orgRepo}/refs/refs_get.json` built in
`RepoRefs`. -/
def refsPathOf (repos repoType orgRepo : String) : String :=
  repos ++ "/api/" ++ repoType ++ "/" ++ orgRepo ++ "/refs/refs_get.json"

/-- Modelled from the spec: `util.GetOrgRepo org repo` (external to the shown
source) combines the organisation and repository into the `{orgRepo}` path
segment of the cache layout in section 6. Claims are insensitive to its
exact shape. -/
def getOrgRepo (org repo : String) : String :=
  if org = "" then repo else org ++ "/" ++ repo

instance {ε α : Type} [DecidableEq ε] [DecidableEq α] : DecidableEq (Except ε α) := fun a b =>
  match a, b with
  | .error x, .error y =>
    if h : x = y then .isTrue (by rw [h]) else .isFalse (by simp [h])
  | .ok x, .ok y =>
    if h : x = y then .isTrue (by rw [h]) else .isFalse (by simp [h])
  | .error _, .ok _ => .isFalse (by simp)
  | .ok _, .error _ => .isFalse (by simp)

/-- Result of `requestAndSaveMeta`: the `(cacheContent, err)` pair, the cache
store after any successful writes, and the emitted events. -/
structure MetaStep where
  res : Except Outcome CacheContent
  fs : Fs
  events : List Event
deriving Repr, DecidableEq

/-- Result of a handler: the returned error value, the cache store after the
call, and the emitted events. -/
structure HandlerResult where
  outcome : Outcome
  fs : Fs
  events : List Event
deriving Repr, DecidableEq

/-- Mirror of `MetaService.requestAndSaveMeta`: fetch from origin, validate
the status, then write the result to the `commit`-keyed path and to the
`commitSha`-keyed path, each preceded by `util.MakeDirs`; any failure returns
the corresponding `util.Error*` value, leaving completed writes in place. -/
def requestAndSaveMeta (env : Env) (fs : Fs)
    (repoType orgRepo commit commitSha method auth : String) : MetaStep :=
  let ev := [Event.fetchMeta method repoType orgRepo commit auth]
  match env.remoteRequestMeta method repoType orgRepo commit auth with
  | none => ⟨.error .entryNotFound, fs, ev⟩
  | some resp =>
    if resp.statusCode = 200 ∨ resp.statusCode = 307 then
      let extracted := env.extractHeaders resp.headers
      let entry : CacheContent := ⟨resp.statusCode, extracted, resp.body⟩
      let apiMainMetaPath := apiMetaPathOf env.repos repoType orgRepo commit method
      if env.makeDirs apiMainMetaPath then
        if env.writeOk apiMainMetaPath then
          let fs1 := fsWrite fs apiMainMetaPath entry
          let apiMetaPath := apiMetaPathOf env.repos repoType orgRepo commitSha method
          if env.makeDirs apiMetaPath then
            if env.writeOk apiMetaPath then
              ⟨.ok entry, fsWrite fs1 apiMetaPath entry, ev⟩
            else ⟨.error .proxyError, fs1, ev⟩
          else ⟨.error .proxyError, fs1, ev⟩
        else ⟨.error .proxyError, fs, ev⟩
      else ⟨.error .proxyError, fs, ev⟩
    else ⟨.error (.entryUnknown resp.statusCode requestErrMsg), fs, ev⟩

/-- Cache-or-fetch block of `MetaProxyCommon` (lines 64-82 of the Go file):
online mode tries the `commitSha`-keyed cache entry first and falls back to
`requestAndSaveMeta` on absence or read failure; offline mode only reads the
cache, failure being a proxy error. -/
def metaStep (env : Env) (fs : Fs)
    (repoType orgRepo commit commitSha method auth : String) : MetaStep :=
  let apiMetaPath := apiMetaPathOf env.repos repoType orgRepo commitSha method
  if env.online then
    if fsFileExists fs apiMetaPath then
      match fsRead fs apiMetaPath with
      | some cc => ⟨.ok cc, fs, []⟩
      | none => requestAndSaveMeta env fs repoType orgRepo commit commitSha method auth
    else requestAndSaveMeta env fs repoType orgRepo commit commitSha method auth
  else
    match fsRead fs apiMetaPath with
    | some cc => ⟨.ok cc, fs, []⟩
    | none => ⟨.error .proxyError, fs, []⟩

/-- Mirror of `MetaService.MetaProxyCommon`: resolve the revision, derive the
`commitSha`-keyed cache path, run the cache-or-fetch step, then emit the
content (HEAD: headers only; otherwise headers then body via `io.Copy`). -/
def MetaProxyCommon (env : Env) (fs : Fs)
    (repoType orgRepo commit method auth : String) : HandlerResult :=
  match env.getFileCommitSha repoType orgRepo commit with
  | .error (.structured sc msg) => ⟨.entryUnknown sc msg, fs, []⟩
  | .error .other => ⟨.proxyError, fs, []⟩
  | .ok commitSha =>
    match metaStep env fs repoType orgRepo commit commitSha method auth with
    | ⟨.error o, fs1, evs⟩ => ⟨o, fs1, evs⟩
    | ⟨.ok cc, fs1, evs⟩ =>
      if method = RequestTypeHead then
        ⟨.ok, fs1, evs ++ [Event.emitHeaders cc.statusCode cc.headers]⟩
      else
        let evs2 := evs ++ [Event.emitHeaders cc.statusCode cc.headers,
                            Event.emitBody cc.originContent]
        if env.copyOk cc.originContent then ⟨.ok, fs1, evs2⟩
        else ⟨.proxyError, fs1, evs2⟩

/-- Mirror of `MetaService.RepoRefs`: validate the repo type and org/repo,
ensure the refs cache directory, then either read the cache (only when
offline AND the cache file exists) or fetch from origin, write the single
refs-keyed cache entry, and stream the body through a one-chunk channel.
The `CacheContent` built on the fetch path omits `StatusCode`, so it carries
the Go zero value `0`. -/
def RepoRefs (env : Env) (fs : Fs) (repoType org repo auth : String) : HandlerResult :=
  let orgRepo := getOrgRepo org repo
  if ¬ env.validRepoType repoType then ⟨.pageNotFound, fs, []⟩
  else if org = "" ∧ repo = "" then ⟨.repoNotFound, fs, []⟩
  else
    let localRefsPath := refsPathOf env.repos repoType orgRepo
    if env.makeDirs localRefsPath then
      if ¬ env.online ∧ fsFileExists fs localRefsPath then
        match fsRead fs localRefsPath with
        | none => ⟨.proxyError, fs, []⟩
        | some cc => ⟨.ok, fs, [Event.emitStream cc [cc.originContent]]⟩
      else
        let ev := [Event.fetchRefs repoType orgRepo auth]
        match env.repoRefsRemote repoType orgRepo auth with
        | none => ⟨.proxyError, fs, ev⟩
        | some resp =>
          let extracted := env.extractHeaders resp.headers
          if env.writeOk localRefsPath then
            let fs1 := fsWrite fs localRefsPath ⟨resp.statusCode, extracted, resp.body⟩
            let cc : CacheContent := ⟨0, extracted, resp.body⟩
            ⟨.ok, fs1, ev ++ [Event.emitStream cc [cc.originContent]]⟩
          else ⟨.proxyError, fs, ev⟩
    else ⟨.proxyError, fs, []⟩

/-- Lexicographic strict comparison of character lists. Go's `<` on strings
compares UTF-8 bytes; since UTF-8 preserves codepoint order, byte-wise
comparison coincides with this codepoint-lexicographic comparison. -/
def charListLt : List Char → List Char → Bool
  | _, [] => false
  | [], _ :: _ => true
  | a :: as, b :: bs => if a < b then true else if b < a then false else charListLt as bs

/-- Go's `<` on strings, as codepoint-lexicographic comparison. -/
def strLt (a b : String) : Bool := charListLt a.data b.data

/-- Go comparator inside `sortNodes`'s `sort.Slice` closure: directories
strictly before files; within the same group, strictly ascending name. -/
def nodeLess (a b : FileDescribe) : Bool :=
  if a.isDir && !b.isDir then true
  else if !a.isDir && b.isDir then false
  else strLt a.name b.name

/-- Total preorder induced by `nodeLess`: `a` may precede `b` exactly when
`b` is not strictly less than `a`. `sort.Slice` guarantees its output sorted
with respect to this relation. -/
abbrev NodeLe (a b : FileDescribe) : Prop := nodeLess b a = false

/-- Mirror of `sortNodes`: sort with respect to the `sort.Slice` comparator.
Go's `sort.Slice` is an unspecified comparison sort whose postcondition is
"permutation of the input, sorted w.r.t. the comparator"; insertion sort
realises exactly that postcondition. -/
def sortNodes (nodes : List FileDescribe) : List FileDescribe :=
  List.insertionSort NodeLe nodes

/-- Directory-listing cache root `{repos}/api/{repoType}/{orgRepo}/paths-info/{commit}[/{filePath}]`
built at the top of `RepositoryFiles`. -/
def pathsInfoDirOf (repos repoType orgRepo commit filePath : String) : String :=
  let d := repos ++ "/api/" ++ repoType ++ "/" ++ orgRepo ++ "/paths-info/" ++ commit
  if filePath = "" then d else d ++ "/" ++ filePath

/-- Download-link root `{publicDomain}/{repoType}/{orgRepo}/resolve/{commit}`
built in `RepositoryFiles`. -/
def downloadLinkRootOf (publicDomain repoType orgRepo commit : String) : String :=
  publicDomain ++ "/" ++ repoType ++ "/" ++ orgRepo ++ "/resolve/" ++ commit

/-- Go loop over `remoteRespPathsInfos` in `analysisFile`: the size of the
first element whose `Path` equals the full relative name, `0` (the zero value
of `FileDescribe.Size`) when none matches. -/
def firstSizeFor (pis : List PathsInfo) (full : String) : Int :=
  match pis.find? (fun i => i.path == full) with
  | some item => item.size
  | none => 0

/-- Mirror of `MetaService.analysisFile`: an entry with a
`paths-info_post.json` cache file is a file (read + parse it, take the size
of the matching path-info element); an entry without one is a directory.
`none` models the `(nil, err)` returns on read or parse failure. -/
def analysisFile (env : Env) (fs : Fs)
    (pathInfoShaDir filePath fileName : String) : Option FileDescribe :=
  let pathInfoPath := pathInfoShaDir ++ "/" ++ fileName ++ "/paths-info_post.json"
  if fsFileExists fs pathInfoPath then
    match fsRead fs pathInfoPath with
    | none => none
    | some cacheContent =>
      match env.parsePathsInfo cacheContent.originContent with
      | none => none
      | some remoteRespPathsInfos =>
        let full := if filePath = "" then fileName else filePath ++ "/" ++ fileName
        some ⟨fileName, firstSizeFor remoteRespPathsInfos full, false, ""⟩
  else some ⟨fileName, 0, true, ""⟩

/-- Body of the `for _, item := range files` loop in `RepositoryFiles`:
analyse one entry and, when it is a file, attach the download link;
`none` models the `continue` on an `analysisFile` error. -/
def processEntry (env : Env) (fs : Fs)
    (pathsInfoShaDir filePath downloadLinkRoot item : String) : Option FileDescribe :=
  match analysisFile env fs pathsInfoShaDir filePath item with
  | none => none
  | some fd =>
    if fd.isDir then some fd
    else
      let filePathName := if filePath = "" then item else filePath ++ "/" ++ item
      some { fd with link := downloadLinkRoot ++ "/" ++ filePathName }

/-- Mirror of `MetaService.RepositoryFiles`: derive the paths-info root and
the download-link root, require the root to exist, enumerate its entries,
process each entry (skipping failures), and sort the result. `none` models
the error returns. -/
def RepositoryFiles (env : Env) (fs : Fs)
    (repoType orgRepo commit filePath : String) : Option (List FileDescribe) :=
  let pathsInfoShaDir := pathsInfoDirOf env.repos repoType orgRepo commit filePath
  let downloadLinkRoot := downloadLinkRootOf env.publicDomain repoType orgRepo commit
  if fsFileExists fs pathsInfoShaDir then
    match env.readDir pathsInfoShaDir with
    | none => none
    | some files =>
      some (sortNodes (files.filterMap
        (processEntry env fs pathsInfoShaDir filePath downloadLinkRoot)))
  else none

/-- CacheContent assembled from an origin response in `requestAndSaveMeta`:
the literal `common.CacheContent{StatusCode, Headers, OriginContent}` built
from `resp.StatusCode`, the extracted headers and `resp.Body`. -/
def metaEntryOf (env : Env) (resp : RemoteResp) : CacheContent :=
  ⟨resp.statusCode, env.extractHeaders resp.headers, resp.body⟩

/-! ### Concrete constants used by witnesses and counterexamples -/

def sModels : String := "models"

def sOrg : String := "org"

def sRepo : String := "repo"

def sOrgRepo : String := "org/repo"

def sMain : String := "main"

def sSha : String := "sha"

def sGet : String := "GET"

def sTok : String := "tk"

def sSub : String := "sub"

def sAtxt : String := "a.txt"

def sBtxt : String := "b.txt"

def sAdir : String := "a_dir"

def sSubAtxt : String := "sub/a.txt"

def sMsg : String := "gated"

/-- Concrete happy-path environment for witnesses: online, every external
operation succeeds. -/
def baseEnv : Env where
  online := true
  repos := "root"
  publicDomain := "pd"
  getFileCommitSha := fun _ _ _ => .ok sSha
  remoteRequestMeta := fun _ _ _ _ _ => some ⟨200, [("k", "v")], [1, 2]⟩
  repoRefsRemote := fun _ _ _ => some ⟨404, [("k", "v")], [3]⟩
  extractHeaders := fun h => h
  makeDirs := fun _ => true
  writeOk := fun _ => true
  copyOk := fun _ => true
  validRepoType := fun _ => true
  parsePathsInfo := fun _ => some [⟨sSubAtxt, 42⟩]
  readDir := fun _ => some [sAtxt]

/-- Offline environment whose refs fetch fails at transport level. -/
def envC2 : Env :=
  { baseEnv with online := false, repoRefsRemote := fun _ _ _ => none }

/-- Cached metadata content used for cache-hit scenarios. -/
def ccHit : CacheContent := ⟨200, [("h", "x")], [9]⟩

/-- Store holding one readable metadata entry at the `sSha`-keyed path. -/
def fsHit : Fs :=
  [(apiMetaPathOf baseEnv.repos sModels sOrgRepo sSha sGet, some ccHit)]

/-- Environment whose origin replies with a non-(200, 307) status. -/
def envBadStatus : Env :=
  { baseEnv with remoteRequestMeta := fun _ _ _ _ _ => some ⟨500, [], []⟩ }

/-- Paths-info root directory for the listing witnesses. -/
def dirC8 : String := pathsInfoDirOf baseEnv.repos sModels sOrgRepo sSha sSub

/-- Per-entry path-info cache file for `a.txt` under `dirC8`. -/
def piPathA : String := dirC8 ++ "/" ++ sAtxt ++ "/paths-info_post.json"

/-- Per-entry path-info cache file for `b.txt` under `dirC8`. -/
def piPathB : String := dirC8 ++ "/" ++ sBtxt ++ "/paths-info_post.json"

/-- Store for the listing witnesses: the root exists (bound to `none`, it is
a directory, not a readable cache file), `a.txt` has path-info bytes `[7]`,
`b.txt` has path-info bytes `[8]`. -/
def fsC8 : Fs :=
  [(dirC8, none), (piPathA, some ⟨200, [], [7]⟩), (piPathB, some ⟨200, [], [8]⟩)]

/-- Environment for the listing witnesses: two entries; path-info bytes `[7]`
parse to one element for `sub/a.txt` of size 42, any other bytes fail to
parse. -/
def envC9 : Env :=
  { baseEnv with
    readDir := fun _ => some [sBtxt, sAtxt]
    parsePathsInfo := fun b => if b = [7] then some [⟨sSubAtxt, 42⟩] else none }

/-! ## Helper lemmas -/

theorem fsRead_fsWrite (fs : Fs) (p q : String) (c : CacheContent) :
    fsRead (fsWrite fs p c) q = if q = p then some c else fsRead fs q := by
  by_cases h : q = p
  · simp [fsRead, fsWrite, List.lookup, h]
  · have hb : (q == p) = false := by simp [h]
    simp [fsRead, fsWrite, List.lookup, hb, h]

theorem fsFileExists_of_fsRead {fs : Fs} {p : String} {c : CacheContent}
    (h : fsRead fs p = some c) : fsFileExists fs p = true := by
  unfold fsRead at h
  unfold fsFileExists
  cases hl : fs.lookup p <;> simp [hl] at h ⊢

theorem charListLt_irrefl : ∀ l : List Char, charListLt l l = false
  | [] => rfl
  | a :: as => by simp [charListLt, lt_irrefl, charListLt_irrefl as]

theorem charListLt_trans :
    ∀ (x y z : List Char), charListLt x y = true → charListLt y z = true →
      charListLt x z = true := by
  intro x
  induction x with
  | nil =>
    intro y z hxy hyz
    cases z with
    | nil => cases y <;> simp [charListLt] at hyz
    | cons c cs => simp [charListLt]
  | cons a as ih =>
    intro y z hxy hyz
    cases y with
    | nil => simp [charListLt] at hxy
    | cons b bs =>
      cases z with
      | nil => simp [charListLt] at hyz
      | cons c cs =>
        simp only [charListLt] at hxy hyz ⊢
        by_cases hab : a < b
        · by_cases hbc : b < c
          · simp [lt_trans hab hbc]
          · by_cases hcb : c < b
            · simp [hbc, hcb] at hyz
            · have hbc2 : b = c := le_antisymm (le_of_not_lt hcb) (le_of_not_lt hbc)
              subst hbc2
              simp [hab]
        · by_cases hba : b < a
          · simp [hab, hba] at hxy
          · have hab2 : a = b := le_antisymm (le_of_not_lt hba) (le_of_not_lt hab)
            subst hab2
            simp [lt_irrefl] at hxy
            by_cases hac : a < c
            · simp [hac]
            · by_cases hca : c < a
              · simp [hac, hca] at hyz
              · have hac2 : a = c := le_antisymm (le_of_not_lt hca) (le_of_not_lt hac)
                subst hac2
                simp [lt_irrefl] at hyz ⊢
                exact ih bs cs hxy hyz

theorem charListLt_eq_of_both :
    ∀ (x y : List Char), charListLt x y = false → charListLt y x = false → x = y := by
  intro x
  induction x with
  | nil =>
    intro y hxy hyx
    cases y with
    | nil => rfl
    | cons b bs => simp [charListLt] at hxy
  | cons a as ih =>
    intro y hxy hyx
    cases y with
    | nil => simp [charListLt] at hyx
    | cons b bs =>
      simp only [charListLt] at hxy hyx
      by_cases hab : a < b
      · simp [hab] at hxy
      · by_cases hba : b < a
        · simp [hba] at hyx
        · have hab2 : a = b := le_antisymm (le_of_not_lt hba) (le_of_not_lt hab)
          subst hab2
          simp [lt_irrefl] at hxy hyx
          rw [ih bs hxy hyx]

theorem charListLt_total (x y : List Char) :
    charListLt x y = false ∨ charListLt y x = false := by
  cases hxy : charListLt x y
  · exact Or.inl rfl
  · right
    cases hyx : charListLt y x
    · rfl
    · have := charListLt_trans x y x hxy hyx
      rw [charListLt_irrefl] at this
      cases this

theorem charListNotLt_trans {x y z : List Char} (h1 : charListLt y x = false)
    (h2 : charListLt z y = false) : charListLt z x = false := by
  cases hzx : charListLt z x
  · rfl
  · exfalso
    cases hxy : charListLt x y
    · have hxy2 := charListLt_eq_of_both x y hxy h1
      rw [hxy2] at hzx
      rw [hzx] at h2
      cases h2
    · have := charListLt_trans z x y hzx hxy
      rw [this] at h2
      cases h2

theorem nodeLe_iff (a b : FileDescribe) :
    NodeLe a b ↔ (a.isDir = true ∧ b.isDir = false) ∨
      (a.isDir = b.isDir ∧ strLt b.name a.name = false) := by
  cases ha : a.isDir <;> cases hb : b.isDir <;>
    simp [NodeLe, nodeLess, ha, hb]

instance : IsTotal FileDescribe NodeLe := by
  constructor
  intro a b
  rw [nodeLe_iff, nodeLe_iff]
  cases ha : a.isDir <;> cases hb : b.isDir <;> simp [ha, hb]
  · exact charListLt_total b.name.data a.name.data
  · exact charListLt_total b.name.data a.name.data

instance : IsTrans FileDescribe NodeLe := by
  constructor
  intro a b c hab hbc
  rw [nodeLe_iff] at hab hbc ⊢
  rcases hab with ⟨ha, hb⟩ | ⟨hab1, hab2⟩ <;> rcases hbc with ⟨hb2, hc⟩ | ⟨hbc1, hbc2⟩
  · rw [hb] at hb2; exact absurd hb2 (by simp)
  · exact Or.inl ⟨ha, hbc1 ▸ hb⟩
  · exact Or.inl ⟨hab1.trans hb2, hc⟩
  · exact Or.inr ⟨hab1.trans hbc1, charListNotLt_trans hab2 hbc2⟩

theorem requestAndSaveMeta_events (env : Env) (fs : Fs)
    (repoType orgRepo commit commitSha method auth : String) :
    (requestAndSaveMeta env fs repoType orgRepo commit commitSha method auth).events
      = [Event.fetchMeta method repoType orgRepo commit auth] := by
  unfold requestAndSaveMeta
  cases env.remoteRequestMeta method repoType orgRepo commit auth
  · simp
  · simp only []
    split_ifs <;> rfl

/-! ## Claims -/

/-- C1: for every successful origin fetch in the metadata proxy for
caller-supplied revision `commit` resolving to `commitSha`, the call either
succeeds or aborts with a proxy error; on success the same
(statusCode, headers, body) entry is stored at both the `commit`-keyed and
the `commitSha`-keyed cache paths (byte-identical bodies); on a proxy error
either nothing was stored or exactly the completed `commit`-keyed write
remains in place (no rollback). -/
theorem C1_dual_write (env : Env) (fs : Fs)
    (repoType orgRepo commit commitSha method auth : String) (resp : RemoteResp)
    (hFetch : env.remoteRequestMeta method repoType orgRepo commit auth = some resp)
    (hStatus : resp.statusCode = 200 ∨ resp.statusCode = 307) :
    ((requestAndSaveMeta env fs repoType orgRepo commit commitSha method auth).res =
        .error .proxyError ∨
      (requestAndSaveMeta env fs repoType orgRepo commit commitSha method auth).res =
        .ok (metaEntryOf env resp)) ∧
    ((requestAndSaveMeta env fs repoType orgRepo commit commitSha method auth).res =
        .ok (metaEntryOf env resp) →
      fsRead (requestAndSaveMeta env fs repoType orgRepo commit commitSha method auth).fs
          (apiMetaPathOf env.repos repoType orgRepo commit method) =
        some (metaEntryOf env resp) ∧
      fsRead (requestAndSaveMeta env fs repoType orgRepo commit commitSha method auth).fs
          (apiMetaPathOf env.repos repoType orgRepo commitSha method) =
        some (metaEntryOf env resp)) ∧
    ((requestAndSaveMeta env fs repoType orgRepo commit commitSha method auth).res =
        .error .proxyError →
      (requestAndSaveMeta env fs repoType orgRepo commit commitSha method auth).fs = fs ∨
      ((requestAndSaveMeta env fs repoType orgRepo commit commitSha method auth).fs =
          fsWrite fs (apiMetaPathOf env.repos repoType orgRepo commit method)
            (metaEntryOf env resp) ∧
        fsRead (requestAndSaveMeta env fs repoType orgRepo commit commitSha method auth).fs
            (apiMetaPathOf env.repos repoType orgRepo commit method) =
          some (metaEntryOf env resp))) := by
  simp only [requestAndSaveMeta, hFetch, if_pos hStatus]
  split_ifs with h1 h2 h3 h4
  · refine ⟨Or.inr rfl, fun _ => ⟨?_, ?_⟩, fun hc => by simp at hc⟩ <;>
      by_cases hp : apiMetaPathOf env.repos repoType orgRepo commit method =
          apiMetaPathOf env.repos repoType orgRepo commitSha method <;>
        simp [fsRead_fsWrite, hp, metaEntryOf]
  · exact ⟨Or.inl rfl, fun hc => by simp at hc,
      fun _ => Or.inr ⟨rfl, by simp [fsRead_fsWrite, metaEntryOf]⟩⟩
  · exact ⟨Or.inl rfl, fun hc => by simp at hc,
      fun _ => Or.inr ⟨rfl, by simp [fsRead_fsWrite, metaEntryOf]⟩⟩
  · exact ⟨Or.inl rfl, fun hc => by simp at hc, fun _ => Or.inl rfl⟩
  · exact ⟨Or.inl rfl, fun hc => by simp at hc, fun _ => Or.inl rfl⟩

theorem metaStep_events (env : Env) (fs : Fs)
    (repoType orgRepo commit commitSha method auth : String) :
    (metaStep env fs repoType orgRepo commit commitSha method auth).events = [] ∨
    (metaStep env fs repoType orgRepo commit commitSha method auth).events =
      [Event.fetchMeta method repoType orgRepo commit auth] := by
  by_cases ho : env.online
  · by_cases he : fsFileExists fs (apiMetaPathOf env.repos repoType orgRepo commitSha method)
    · rcases hr : fsRead fs (apiMetaPathOf env.repos repoType orgRepo commitSha method) with _ | cc <;>
        simp [metaStep, ho, he, hr, requestAndSaveMeta_events]
    · simp [metaStep, ho, he, requestAndSaveMeta_events]
  · rcases hr : fsRead fs (apiMetaPathOf env.repos repoType orgRepo commitSha method) with _ | cc <;>
      simp [metaStep, ho, hr]

/-- Witness for C1 at a concrete happy-path input: both cache tiers hold the
identical fetched entry. -/
theorem C1_dual_write_witness :
    fsRead (requestAndSaveMeta baseEnv [] sModels sOrgRepo sMain sSha sGet sTok).fs
        (apiMetaPathOf baseEnv.repos sModels sOrgRepo sMain sGet) =
      some (metaEntryOf baseEnv ⟨200, [("k", "v")], [1, 2]⟩) ∧
    fsRead (requestAndSaveMeta baseEnv [] sModels sOrgRepo sMain sSha sGet sTok).fs
        (apiMetaPathOf baseEnv.repos sModels sOrgRepo sSha sGet) =
      some (metaEntryOf baseEnv ⟨200, [("k", "v")], [1, 2]⟩) :=
  (C1_dual_write baseEnv [] sModels sOrgRepo sMain sSha sGet sTok
      ⟨200, [("k", "v")], [1, 2]⟩ rfl (Or.inl rfl)).2.1 rfl

/-- C2 fails as stated: in offline mode with no cache entry for the refs key,
`RepoRefs` still attempts an origin fetch (the `fetchRefs` event below),
because the Go condition `!online && FileExists` falls through to the fetch
branch whenever the cache file is absent. -/
theorem C2_counterexample :
    envC2.online = false ∧ fsFileExists [] (refsPathOf envC2.repos sModels sOrgRepo) = false ∧
    Event.fetchRefs sModels sOrgRepo sTok ∈ (RepoRefs envC2 [] sModels sOrg sRepo sTok).events := by
  decide

/-- C2 (amended): in offline mode, a metadata-proxy request whose resolved
key has no readable cache entry fails with a proxy error and performs no
origin call (empty event trace); the refs proxy, by contrast, falls through
to the fetch branch when the refs cache file is absent and does attempt an
origin fetch, a transport failure of which surfaces as a proxy error. -/
theorem C2_offline (env : Env) (fs : Fs)
    (repoType orgRepo commit method auth org repo commitSha : String)
    (hOff : env.online = false) :
    (env.getFileCommitSha repoType orgRepo commit = .ok commitSha →
      fsRead fs (apiMetaPathOf env.repos repoType orgRepo commitSha method) = none →
      MetaProxyCommon env fs repoType orgRepo commit method auth = ⟨.proxyError, fs, []⟩) ∧
    (env.validRepoType repoType = true → ¬(org = "" ∧ repo = "") →
      env.makeDirs (refsPathOf env.repos repoType (getOrgRepo org repo)) = true →
      fsFileExists fs (refsPathOf env.repos repoType (getOrgRepo org repo)) = false →
      Event.fetchRefs repoType (getOrgRepo org repo) auth ∈
        (RepoRefs env fs repoType org repo auth).events ∧
      (env.repoRefsRemote repoType (getOrgRepo org repo) auth = none →
        (RepoRefs env fs repoType org repo auth).outcome = .proxyError)) := by
  constructor
  · intro hSha hRead
    simp [MetaProxyCommon, metaStep, hSha, hOff, hRead]
  · intro hValid hOrg hMk hEx
    rcases hr : env.repoRefsRemote repoType (getOrgRepo org repo) auth with _ | resp
    · simp [RepoRefs, hValid, hOrg, hMk, hOff, hEx, hr]
    · by_cases hw : env.writeOk (refsPathOf env.repos repoType (getOrgRepo org repo)) <;>
        simp [RepoRefs, hValid, hOrg, hMk, hOff, hEx, hr, hw]

/-- Witness for the amended C2 at concrete inputs: the metadata proxy yields
a bare proxy error with no events, and the offline refs proxy both attempts
the fetch and reports a proxy error when it fails. -/
theorem C2_offline_witness :
    MetaProxyCommon envC2 [] sModels sOrgRepo sMain sGet sTok = ⟨.proxyError, [], []⟩ ∧
    Event.fetchRefs sModels sOrgRepo sTok ∈ (RepoRefs envC2 [] sModels sOrg sRepo sTok).events ∧
    (RepoRefs envC2 [] sModels sOrg sRepo sTok).outcome = .proxyError := by
  have h := C2_offline envC2 [] sModels sOrgRepo sMain sGet sTok sOrg sRepo sSha rfl
  refine ⟨h.1 rfl rfl, ?_, ?_⟩
  · exact (h.2 rfl (by decide) rfl rfl).1
  · exact (h.2 rfl (by decide) rfl rfl).2 rfl

/-- C3: in online mode, when the resolved key's cache entry exists and is
readable, the call leaves the store unchanged, a second call returns the
identical result (hence identical status, headers and body), neither call
contacts the origin, and the emitted headers come from the cached entry. -/
theorem C3_cache_hit_idempotent (env : Env) (fs : Fs)
    (repoType orgRepo commit method auth commitSha : String) (cc : CacheContent)
    (hOn : env.online = true)
    (hSha : env.getFileCommitSha repoType orgRepo commit = .ok commitSha)
    (hRead : fsRead fs (apiMetaPathOf env.repos repoType orgRepo commitSha method) = some cc) :
    (MetaProxyCommon env fs repoType orgRepo commit method auth).fs = fs ∧
    MetaProxyCommon env (MetaProxyCommon env fs repoType orgRepo commit method auth).fs
        repoType orgRepo commit method auth =
      MetaProxyCommon env fs repoType orgRepo commit method auth ∧
    (∀ m rt r c a, Event.fetchMeta m rt r c a ∉
      (MetaProxyCommon env fs repoType orgRepo commit method auth).events) ∧
    Event.emitHeaders cc.statusCode cc.headers ∈
      (MetaProxyCommon env fs repoType orgRepo commit method auth).events := by
  have hEx := fsFileExists_of_fsRead hRead
  by_cases hm : method = RequestTypeHead
  · subst hm
    have h1 : MetaProxyCommon env fs repoType orgRepo commit RequestTypeHead auth =
        ⟨.ok, fs, [Event.emitHeaders cc.statusCode cc.headers]⟩ := by
      simp [MetaProxyCommon, metaStep, hSha, hOn, hEx, hRead]
    simp [h1]
  · by_cases hcp : env.copyOk cc.originContent
    · have h1 : MetaProxyCommon env fs repoType orgRepo commit method auth =
          ⟨.ok, fs, [Event.emitHeaders cc.statusCode cc.headers,
                     Event.emitBody cc.originContent]⟩ := by
        simp [MetaProxyCommon, metaStep, hSha, hOn, hEx, hRead, hm, hcp]
      simp [h1]
    · have h1 : MetaProxyCommon env fs repoType orgRepo commit method auth =
          ⟨.proxyError, fs, [Event.emitHeaders cc.statusCode cc.headers,
                             Event.emitBody cc.originContent]⟩ := by
        simp [MetaProxyCommon, metaStep, hSha, hOn, hEx, hRead, hm, hcp]
      simp [h1]

/-- Witness for C3 at a concrete cached input. -/
theorem C3_cache_hit_idempotent_witness :
    (MetaProxyCommon baseEnv fsHit sModels sOrgRepo sMain sGet sTok).fs = fsHit ∧
    MetaProxyCommon baseEnv (MetaProxyCommon baseEnv fsHit sModels sOrgRepo sMain sGet sTok).fs
        sModels sOrgRepo sMain sGet sTok =
      MetaProxyCommon baseEnv fsHit sModels sOrgRepo sMain sGet sTok ∧
    (∀ m rt r c a, Event.fetchMeta m rt r c a ∉
      (MetaProxyCommon baseEnv fsHit sModels sOrgRepo sMain sGet sTok).events) ∧
    Event.emitHeaders ccHit.statusCode ccHit.headers ∈
      (MetaProxyCommon baseEnv fsHit sModels sOrgRepo sMain sGet sTok).events :=
  C3_cache_hit_idempotent baseEnv fsHit sModels sOrgRepo sMain sGet sTok sSha ccHit
    rfl rfl (by decide)

/-- C4: with a valid repo type, non-empty org/repo and a successful directory
creation, the refs proxy always fetches from origin when the offline flag is
false — even when a cache entry already exists — and writes the result to the
single refs-keyed path on success; only in offline mode with an existing
cache file is the cached content read (and streamed) instead of fetching. -/
theorem C4_refs_always_refetch_online (env : Env) (fs : Fs)
    (repoType org repo auth : String)
    (hValid : env.validRepoType repoType = true)
    (hOrg : ¬(org = "" ∧ repo = ""))
    (hMk : env.makeDirs (refsPathOf env.repos repoType (getOrgRepo org repo)) = true) :
    (env.online = true →
      Event.fetchRefs repoType (getOrgRepo org repo) auth ∈
        (RepoRefs env fs repoType org repo auth).events) ∧
    (env.online = true →
      ∀ resp, env.repoRefsRemote repoType (getOrgRepo org repo) auth = some resp →
        env.writeOk (refsPathOf env.repos repoType (getOrgRepo org repo)) = true →
        (RepoRefs env fs repoType org repo auth).fs =
          fsWrite fs (refsPathOf env.repos repoType (getOrgRepo org repo))
            ⟨resp.statusCode, env.extractHeaders resp.headers, resp.body⟩ ∧
        (RepoRefs env fs repoType org repo auth).outcome = .ok) ∧
    (env.online = false →
      fsFileExists fs (refsPathOf env.repos repoType (getOrgRepo org repo)) = true →
      (∀ rt orp a, Event.fetchRefs rt orp a ∉ (RepoRefs env fs repoType org repo auth).events) ∧
      (RepoRefs env fs repoType org repo auth).fs = fs ∧
      (∀ cc, fsRead fs (refsPathOf env.repos repoType (getOrgRepo org repo)) = some cc →
        RepoRefs env fs repoType org repo auth =
          ⟨.ok, fs, [Event.emitStream cc [cc.originContent]]⟩)) := by
  refine ⟨?_, ?_, ?_⟩
  · intro hOn
    rcases hr : env.repoRefsRemote repoType (getOrgRepo org repo) auth with _ | resp
    · simp [RepoRefs, hValid, hOrg, hMk, hOn, hr]
    · by_cases hw : env.writeOk (refsPathOf env.repos repoType (getOrgRepo org repo)) <;>
        simp [RepoRefs, hValid, hOrg, hMk, hOn, hr, hw]
  · intro hOn resp hr hw
    simp [RepoRefs, hValid, hOrg, hMk, hOn, hr, hw]
  · intro hOff hEx
    rcases hread : fsRead fs (refsPathOf env.repos repoType (getOrgRepo org repo)) with _ | cc
    · refine ⟨?_, ?_, ?_⟩ <;> simp [RepoRefs, hValid, hOrg, hMk, hOff, hEx, hread]
    · refine ⟨?_, ?_, ?_⟩ <;> simp [RepoRefs, hValid, hOrg, hMk, hOff, hEx, hread]

/-- Witness for C4 at a concrete online input with a pre-existing cache
entry: the fetch still happens and the store is overwritten. -/
theorem C4_refs_always_refetch_online_witness :
    Event.fetchRefs sModels sOrgRepo sTok ∈
      (RepoRefs baseEnv fsHit sModels sOrg sRepo sTok).events ∧
    (RepoRefs baseEnv fsHit sModels sOrg sRepo sTok).fs =
      fsWrite fsHit (refsPathOf baseEnv.repos sModels sOrgRepo)
        ⟨404, baseEnv.extractHeaders [("k", "v")], [3]⟩ ∧
    (RepoRefs baseEnv fsHit sModels sOrg sRepo sTok).outcome = .ok := by
  have h := C4_refs_always_refetch_online baseEnv fsHit sModels sOrg sRepo sTok
    rfl (by decide) rfl
  exact ⟨h.1 rfl, (h.2.1 rfl ⟨404, [("k", "v")], [3]⟩ rfl rfl).1,
    (h.2.1 rfl ⟨404, [("k", "v")], [3]⟩ rfl rfl).2⟩

/-- C10: on the refs fetch path (online, or offline without a cache file),
any origin response — whatever its status code, here universally quantified —
is written to the cache and streamed to the client; there is no 200/307
check, and the streamed CacheContent is built without a status code (Go zero
value 0). -/
theorem C10_refs_no_status_check (env : Env) (fs : Fs)
    (repoType org repo auth : String) (resp : RemoteResp)
    (hValid : env.validRepoType repoType = true)
    (hOrg : ¬(org = "" ∧ repo = ""))
    (hMk : env.makeDirs (refsPathOf env.repos repoType (getOrgRepo org repo)) = true)
    (hBranch : env.online = true ∨
      fsFileExists fs (refsPathOf env.repos repoType (getOrgRepo org repo)) = false)
    (hFetch : env.repoRefsRemote repoType (getOrgRepo org repo) auth = some resp)
    (hW : env.writeOk (refsPathOf env.repos repoType (getOrgRepo org repo)) = true) :
    RepoRefs env fs repoType org repo auth =
      ⟨.ok,
       fsWrite fs (refsPathOf env.repos repoType (getOrgRepo org repo))
         ⟨resp.statusCode, env.extractHeaders resp.headers, resp.body⟩,
       [Event.fetchRefs repoType (getOrgRepo org repo) auth,
        Event.emitStream ⟨0, env.extractHeaders resp.headers, resp.body⟩ [resp.body]]⟩ := by
  have hcond : ¬(¬env.online = true ∧
      fsFileExists fs (refsPathOf env.repos repoType (getOrgRepo org repo)) = true) := by
    rcases hBranch with h | h <;> simp [h]
  simp only [RepoRefs, hValid, hOrg, hMk, hFetch, hW]
  rw [if_neg hcond]
  simp [hFetch, hW]

/-- Witness for C10 at a concrete input whose origin response has status 404:
it is cached (with status 404) and streamed (with status field 0). -/
theorem C10_refs_no_status_check_witness :
    RepoRefs baseEnv [] sModels sOrg sRepo sTok =
      ⟨.ok,
       fsWrite [] (refsPathOf baseEnv.repos sModels sOrgRepo)
         ⟨404, baseEnv.extractHeaders [("k", "v")], [3]⟩,
       [Event.fetchRefs sModels sOrgRepo sTok,
        Event.emitStream ⟨0, baseEnv.extractHeaders [("k", "v")], [3]⟩ [[3]]]⟩ :=
  C10_refs_no_status_check baseEnv [] sModels sOrg sRepo sTok ⟨404, [("k", "v")], [3]⟩
    rfl (by decide) rfl (Or.inl rfl) rfl rfl

/-- C5: failure classification of the metadata proxy. A structured resolver
error yields an entry-unknown response with the resolver's status code; any
other resolver failure yields a generic proxy error; an origin status other
than 200 and 307 yields an entry-unknown error carrying that status; an
origin transport failure yields entry-not-found. -/
theorem C5_error_classification (env : Env) (fs : Fs)
    (repoType orgRepo commit commitSha method auth : String) :
    (∀ sc msg, env.getFileCommitSha repoType orgRepo commit = .error (.structured sc msg) →
      MetaProxyCommon env fs repoType orgRepo commit method auth =
        ⟨.entryUnknown sc msg, fs, []⟩) ∧
    (env.getFileCommitSha repoType orgRepo commit = .error .other →
      MetaProxyCommon env fs repoType orgRepo commit method auth = ⟨.proxyError, fs, []⟩) ∧
    (env.remoteRequestMeta method repoType orgRepo commit auth = none →
      (requestAndSaveMeta env fs repoType orgRepo commit commitSha method auth).res =
        .error .entryNotFound) ∧
    (∀ resp, env.remoteRequestMeta method repoType orgRepo commit auth = some resp →
      resp.statusCode ≠ 200 → resp.statusCode ≠ 307 →
      (requestAndSaveMeta env fs repoType orgRepo commit commitSha method auth).res =
        .error (.entryUnknown resp.statusCode requestErrMsg)) := by
  refine ⟨?_, ?_, ?_, ?_⟩
  · intro sc msg h
    simp [MetaProxyCommon, h]
  · intro h
    simp [MetaProxyCommon, h]
  · intro h
    simp [requestAndSaveMeta, h]
  · intro resp h h200 h307
    have hst : ¬(resp.statusCode = 200 ∨ resp.statusCode = 307) := by
      rintro (hc | hc) <;> [exact h200 hc; exact h307 hc]
    simp [requestAndSaveMeta, h, hst]

/-- Witness for C5 at a concrete input whose origin answers with status 500:
the fetch result is classified as entry-unknown carrying 500. -/
theorem C5_error_classification_witness :
    (requestAndSaveMeta envBadStatus [] sModels sOrgRepo sMain sSha sGet sTok).res =
      .error (.entryUnknown 500 requestErrMsg) :=
  (C5_error_classification envBadStatus [] sModels sOrgRepo sMain sSha sGet sTok).2.2.2
    ⟨500, [], []⟩ rfl (by decide) (by decide)

/-- C6: for a HEAD request, no body bytes are ever emitted by the metadata
proxy, on the cache-hit path as well as on the fetch path (universally over
every environment and store). -/
theorem C6_head_no_body (env : Env) (fs : Fs)
    (repoType orgRepo commit auth : String) (b : Bytes) :
    Event.emitBody b ∉
      (MetaProxyCommon env fs repoType orgRepo commit RequestTypeHead auth).events := by
  unfold MetaProxyCommon
  rcases env.getFileCommitSha repoType orgRepo commit with e | commitSha
  · rcases e with ⟨sc, msg⟩ | _ <;> simp
  · rcases hs : metaStep env fs repoType orgRepo commit commitSha RequestTypeHead auth with
      ⟨res, fs1, evs⟩
    have hevs : evs = [] ∨ evs = [Event.fetchMeta RequestTypeHead repoType orgRepo commit auth] := by
      have := metaStep_events env fs repoType orgRepo commit commitSha RequestTypeHead auth
      rw [hs] at this
      exact this
    rcases res with o | cc
    · rcases hevs with h | h <;> simp [hs, h]
    · rcases hevs with h | h <;> simp [hs, h]

theorem filterMap_filter_ne {α β : Type} [DecidableEq α] (f : α → Option β) (bad : α)
    (hf : f bad = none) (l : List α) :
    (l.filter (fun x => x != bad)).filterMap f = l.filterMap f := by
  induction l with
  | nil => rfl
  | cons a as ih =>
    by_cases h : a = bad
    · subst h
      simp [List.filter_cons, List.filterMap_cons, hf, ih]
    · rcases hfa : f a with _ | b <;>
        simp [List.filter_cons, List.filterMap_cons, h, hfa, ih]

/-- C7: the listing sort is a permutation of its input in which every
directory entry precedes every file entry and, within the directory group
and within the file group, names ascend under the string order (byte-wise
in Go, order-isomorphic to Lean's lexicographic order); on the spec's
example, entries b.txt, a_dir (a directory), a.txt sort to
a_dir, a.txt, b.txt. -/
theorem C7_listing_sort_order (nodes : List FileDescribe) :
    (sortNodes nodes).Perm nodes ∧
    (sortNodes nodes).Pairwise (fun a b =>
      (a.isDir = true ∧ b.isDir = false) ∨
        (a.isDir = b.isDir ∧ strLt b.name a.name = false)) ∧
    sortNodes [⟨sBtxt, 1, false, ""⟩, ⟨sAdir, 0, true, ""⟩, ⟨sAtxt, 2, false, ""⟩] =
      [⟨sAdir, 0, true, ""⟩, ⟨sAtxt, 2, false, ""⟩, ⟨sBtxt, 1, false, ""⟩] := by
  refine ⟨List.perm_insertionSort NodeLe nodes, ?_, by decide⟩
  exact List.Pairwise.imp (fun h => (nodeLe_iff _ _).1 h)
    (List.sorted_insertionSort NodeLe nodes)

/-- C8: a listing entry having a per-entry path-info cache file yields a
FileDescribe with isDir false, size taken from the path-info element whose
path equals `filePath/item` (or `item` when `filePath` is empty), and link
`publicDomain/repoType/orgRepo/resolve/commit/` followed by that same
relative path; the entry is part of the returned listing. -/
theorem C8_listing_size_and_link (env : Env) (fs : Fs)
    (repoType orgRepo commit filePath item : String) (files : List String)
    (cc : CacheContent) (pis : List PathsInfo) (pinfo : PathsInfo)
    (hEx : fsFileExists fs (pathsInfoDirOf env.repos repoType orgRepo commit filePath) = true)
    (hDir : env.readDir (pathsInfoDirOf env.repos repoType orgRepo commit filePath) = some files)
    (hItem : item ∈ files)
    (hPi : fsRead fs (pathsInfoDirOf env.repos repoType orgRepo commit filePath ++ "/" ++ item
      ++ "/paths-info_post.json") = some cc)
    (hParse : env.parsePathsInfo cc.originContent = some pis)
    (hFind : pis.find? (fun i => i.path ==
      (if filePath = "" then item else filePath ++ "/" ++ item)) = some pinfo) :
    ∃ out, RepositoryFiles env fs repoType orgRepo commit filePath = some out ∧
      (⟨item, pinfo.size, false,
        downloadLinkRootOf env.publicDomain repoType orgRepo commit ++ "/" ++
          (if filePath = "" then item else filePath ++ "/" ++ item)⟩ : FileDescribe) ∈ out := by
  have hexPi := fsFileExists_of_fsRead hPi
  have hpe : processEntry env fs (pathsInfoDirOf env.repos repoType orgRepo commit filePath)
      filePath (downloadLinkRootOf env.publicDomain repoType orgRepo commit) item =
      some ⟨item, pinfo.size, false,
        downloadLinkRootOf env.publicDomain repoType orgRepo commit ++ "/" ++
          (if filePath = "" then item else filePath ++ "/" ++ item)⟩ := by
    simp [processEntry, analysisFile, hexPi, hPi, hParse, firstSizeFor, hFind]
  refine ⟨sortNodes (files.filterMap
      (processEntry env fs (pathsInfoDirOf env.repos repoType orgRepo commit filePath) filePath
        (downloadLinkRootOf env.publicDomain repoType orgRepo commit))), ?_, ?_⟩
  · simp [RepositoryFiles, hEx, hDir]
  · have hmem := List.mem_filterMap.mpr ⟨item, hItem, hpe⟩
    simpa [sortNodes, List.mem_insertionSort] using hmem

/-- Witness for C8 on the spec's example: one entry `a.txt` under subPath
`sub` with path-info `[(sub/a.txt, 42)]` yields size 42 and link ending in
`/resolve/sha/sub/a.txt`. -/
theorem C8_listing_size_and_link_witness :
    ∃ out, RepositoryFiles baseEnv fsC8 sModels sOrgRepo sSha sSub = some out ∧
      (⟨sAtxt, (42 : Int), false,
        downloadLinkRootOf baseEnv.publicDomain sModels sOrgRepo sSha ++ "/" ++
          (sSub ++ "/" ++ sAtxt)⟩ : FileDescribe) ∈ out :=
  C8_listing_size_and_link baseEnv fsC8 sModels sOrgRepo sSha sSub sAtxt [sAtxt]
    ⟨200, [], [7]⟩ [⟨sSubAtxt, 42⟩] ⟨sSubAtxt, 42⟩
    (by decide) rfl (by decide) (by decide) rfl (by decide)

/-- C9: a read or parse failure of one entry's path-info file drops only
that entry: the call still succeeds and the result is exactly the sorted
processing of all the other entries. -/
theorem C9_entry_skip (env : Env) (fs : Fs)
    (repoType orgRepo commit filePath bad : String) (files : List String)
    (hEx : fsFileExists fs (pathsInfoDirOf env.repos repoType orgRepo commit filePath) = true)
    (hDir : env.readDir (pathsInfoDirOf env.repos repoType orgRepo commit filePath) = some files)
    (hBad : analysisFile env fs (pathsInfoDirOf env.repos repoType orgRepo commit filePath)
      filePath bad = none) :
    RepositoryFiles env fs repoType orgRepo commit filePath =
      some (sortNodes ((files.filter (fun x => x != bad)).filterMap
        (processEntry env fs (pathsInfoDirOf env.repos repoType orgRepo commit filePath) filePath
          (downloadLinkRootOf env.publicDomain repoType orgRepo commit)))) := by
  have hpb : processEntry env fs (pathsInfoDirOf env.repos repoType orgRepo commit filePath)
      filePath (downloadLinkRootOf env.publicDomain repoType orgRepo commit) bad = none := by
    simp [processEntry, hBad]
  rw [filterMap_filter_ne _ _ hpb]
  simp [RepositoryFiles, hEx, hDir]

/-- Witness for C9 at a concrete input: entry `b.txt` has unparsable
path-info bytes and is dropped; `a.txt` is still listed. -/
theorem C9_entry_skip_witness :
    RepositoryFiles envC9 fsC8 sModels sOrgRepo sSha sSub =
      some (sortNodes (([sBtxt, sAtxt].filter (fun x => x != sBtxt)).filterMap
        (processEntry envC9 fsC8 (pathsInfoDirOf envC9.repos sModels sOrgRepo sSha sSub) sSub
          (downloadLinkRootOf envC9.publicDomain sModels sOrgRepo sSha)))) :=
  C9_entry_skip envC9 fsC8 sModels sOrgRepo sSha sSub sBtxt [sBtxt, sAtxt]
    (by decide) rfl (by decide)
